import Mathlib

/-!
Verification of the CreatorsCook virality engine against its specification.

The development shallowly embeds the relevant TypeScript sources:

* `src/src/lib/script-editor-service.ts` — compliance rule engine, scorer
  and risk classifier (`ScriptEditorService`);
* `src/src/lib/supabase-server.ts` — review ingestion: sentiment mapping,
  theme extraction and pain-point/delight-factor aggregation
  (`IngestionService`);
* `src/unnamed/part_007` — the AI angle generator (`AIService`): response
  parsing, pack validation and fallback analysis;
* `src/src/lib/product-service.ts` — scraper dispatch (`ScrapingManager`).

Scanned text and keywords are modelled as `List Char`; JavaScript numbers
as `ℚ` (all arithmetic in the embedded code is exact decimal arithmetic).
The JavaScript regular-expression engine and the WHATWG URL parser are not
part of this repository; where the code consults them they are abstracted
as function parameters (a rule carries the span list its pattern's global
exec loop produces; the URL parser is a `String → Option UrlView`
argument).
-/

namespace CreatorsCook

/-! ## Compliance flags (script-editor-service.ts) -/

/-- Severity of a compliance flag: 'low' | 'medium' | 'high'. -/
inductive Severity where
  | low
  | medium
  | high
deriving DecidableEq, Repr

/-- A `{ start, end }` character span into the scanned content.  The source
field `end` is a reserved word in Lean and is rendered `stop`. -/
structure Span where
  start : Nat
  stop : Nat
deriving DecidableEq, Repr

/-- `ComplianceFlag` from `types/product.ts` / script-editor-service.ts:
`{ type, severity, message, suggestion?, position? }`. -/
structure ComplianceFlag where
  type : String
  severity : Severity
  message : List Char
  suggestion : Option (List Char)
  position : Option Span
deriving DecidableEq, Repr

/-- Deduction weight per flag, from `calculateComplianceScore`:
high → 0.3, medium → 0.15, low → 0.05. -/
def severityWeight : Severity → ℚ
  | .high => 0.3
  | .medium => 0.15
  | .low => 0.05

/-- `ScriptEditorService.calculateComplianceScore`: early-return 1.0 on an
empty flag list; otherwise start at 1.0, subtract the severity weight per
flag, add `min(0.1, contentLength / 1000)`, and clamp to [0, 1]. -/
def calculateComplianceScore (flags : List ComplianceFlag) (contentLength : Nat) : ℚ :=
  if flags.length = 0 then 1 else
    let totalScore : ℚ := flags.foldl (fun acc f => acc - severityWeight f.severity) 1
    let lengthBonus : ℚ := min 0.1 ((contentLength : ℚ) / 1000)
    max 0 (min 1 (totalScore + lengthBonus))

/-- Number of flags of a given severity in a list. -/
def countSeverity (s : Severity) (flags : List ComplianceFlag) : Nat :=
  (flags.filter (fun f => f.severity = s)).length

/-- Risk level returned by `determineRiskLevel`. -/
inductive RiskLevel where
  | low
  | medium
  | high
deriving DecidableEq, Repr

/-- `ScriptEditorService.determineRiskLevel`: 'high' if any high-severity
flag or more than 2 medium-severity flags; else 'medium' if any
medium-severity flag or more than 3 flags total; else 'low'. -/
def determineRiskLevel (flags : List ComplianceFlag) : RiskLevel :=
  let highSeverityFlags := countSeverity .high flags
  let mediumSeverityFlags := countSeverity .medium flags
  if highSeverityFlags > 0 then .high
  else if mediumSeverityFlags > 2 then .high
  else if mediumSeverityFlags > 0 ∨ flags.length > 3 then .medium
  else .low

/-- The score formula exactly as the specification words it: clamp to
[0, 1] of `1 - 0.30·#high - 0.15·#medium - 0.05·#low + min(0.10, n/1000)`.
Stated from the spec, to be compared with `calculateComplianceScore`. -/
def specComplianceScore (flags : List ComplianceFlag) (n : Nat) : ℚ :=
  max 0 (min 1 (1 - 0.3 * (countSeverity .high flags)
                  - 0.15 * (countSeverity .medium flags)
                  - 0.05 * (countSeverity .low flags)
                  + min 0.1 ((n : ℚ) / 1000)))

/-- A single high-severity flag, used to exhibit score/risk decoupling. -/
def sampleHighFlag : ComplianceFlag :=
  { type := "tos_violation"
    severity := .high
    message := "Avoid making absolute guarantees".data
    suggestion := some "Use may-help phrasing instead of guarantees".data
    position := some ⟨0, 9⟩ }

/-! ## Substring search (JS `includes` / `indexOf`) -/

/-- `toLowerCase` on scanned text. -/
def lowerL (s : List Char) : List Char := s.map Char.toLower

/-- Whether `pat` occurs in `hay` starting at index `i`. -/
def substrAtB (hay pat : List Char) (i : Nat) : Bool := pat.isPrefixOf (hay.drop i)

/-- JS `hay.indexOf(pat)`: the least index at which `pat` occurs, if any. -/
def firstMatch (hay pat : List Char) : Option Nat :=
  (List.range (hay.length + 1)).find? (fun i => substrAtB hay pat i)

/-- JS `hay.includes(pat)`. -/
def includesB (hay pat : List Char) : Bool := (firstMatch hay pat).isSome

/-! ## Brand-rule and platform-rule scanning (script-editor-service.ts) -/

/-- `BrandRule` from `types/product.ts`, restricted to the fields the rule
engine consults (id and timestamps are database bookkeeping). -/
structure BrandRule where
  forbidden_keywords : List (List Char)
  required_keywords : List (List Char)
  custom_rules : List (List Char)

/-- Message of a forbidden-keyword flag: `Forbidden keyword: "${keyword}"`. -/
def forbiddenMessage (kw : List Char) : List Char :=
  "Forbidden keyword: \x22".data ++ kw ++ "\x22".data

/-- Message of the required-keyword advisory flag. -/
def requiredMessage : List Char := "Consider including required brand keywords".data

/-- Suggestion text of the advisory flag: `Try to include: ${keywords.join(', ')}`. -/
def requiredSuggestion (kws : List (List Char)) : List Char :=
  "Try to include: ".data ++ List.intercalate ", ".data kws

/-- The flag pushed for one forbidden keyword: high severity, positioned
at the first occurrence (`indexOf`) of the keyword in the lowered
content. -/
def forbiddenFlagFor (lowerContent keyword : List Char) : ComplianceFlag :=
  let index := (firstMatch lowerContent (lowerL keyword)).getD 0
  { type := "brand_rule"
    severity := .high
    message := forbiddenMessage keyword
    suggestion := some "Remove this term as it violates brand guidelines".data
    position := some ⟨index, index + keyword.length⟩ }

/-- The single advisory flag pushed when no required keyword occurs: low
severity and no position. -/
def requiredAdvisoryFlag (kws : List (List Char)) : ComplianceFlag :=
  { type := "brand_rule"
    severity := .low
    message := requiredMessage
    suggestion := some (requiredSuggestion kws)
    position := none }

/-- `ScriptEditorService.checkBrandRules`: one high-severity flag at the
first occurrence of each forbidden keyword found case-insensitively in the
content; then, when `required_keywords` is non-empty and none of them
occurs, a single low-severity positionless advisory flag. -/
def checkBrandRules (content : List Char) (brandRules : BrandRule) : List ComplianceFlag :=
  let lowerContent := lowerL content
  let forbiddenFlags : List ComplianceFlag :=
    brandRules.forbidden_keywords.filterMap (fun keyword =>
      if includesB lowerContent (lowerL keyword) then
        some (forbiddenFlagFor lowerContent keyword)
      else none)
  let requiredFlags : List ComplianceFlag :=
    if 0 < brandRules.required_keywords.length ∧
        brandRules.required_keywords.any
          (fun keyword => includesB lowerContent (lowerL keyword)) = false then
      [requiredAdvisoryFlag brandRules.required_keywords]
    else []
  forbiddenFlags ++ requiredFlags

/-- A platform-policy compliance rule.  The source stores a `RegExp`
pattern and `findRuleMatches` runs the JS global-exec loop over the
content, collecting every match span.  The regex engine belongs to the JS
runtime, not to this repository, so a rule here carries `matchSpans`: the
function from content to the span list that loop produces. -/
structure ComplianceRule where
  type : String
  matchSpans : List Char → List Span
  message : List Char
  severity : Severity
  suggestion : Option (List Char)

/-- The flag pushed by `analyzeScript` for one platform-rule match. -/
def ruleFlag (rule : ComplianceRule) (m : Span) : ComplianceFlag :=
  { type := rule.type
    severity := rule.severity
    message := rule.message
    suggestion := rule.suggestion
    position := some m }

/-- The ToS-rule phase of `analyzeScript`: for every rule, one flag per
match span. -/
def platformFlags (tosRules : List ComplianceRule) (content : List Char) : List ComplianceFlag :=
  tosRules.flatMap (fun rule => (rule.matchSpans content).map (ruleFlag rule))

/-- The flag list assembled by `ScriptEditorService.analyzeScript`:
platform-rule flags first, then brand-rule flags when a brand rule set is
supplied. -/
def analyzeFlags (tosRules : List ComplianceRule) (content : List Char)
    (brandRules : Option BrandRule) : List ComplianceFlag :=
  platformFlags tosRules content ++
    (match brandRules with
     | some br => checkBrandRules content br
     | none => [])

/-! ## Review ingestion (supabase-server.ts, `IngestionService`) -/

/-- A scraped review, restricted to the fields `processReviews` consults
(`rating`, `content`, `title`; author/date/verified/helpful_count are
passed through untouched). -/
structure Review where
  rating : ℚ
  content : List Char
  title : Option (List Char)

/-- `IngestionService.calculateSentiment`: `(rating - 3) / 2`. -/
def calculateSentiment (rating : ℚ) : ℚ := (rating - 3) / 2

/-- Keyword lists of `extractThemes`, in source order.  Each entry is the
alternation of literal words of one case-insensitive regex test. -/
def themeTable : List (List Char × List (List Char)) :=
  [ ("taste_quality".data,
      ["taste", "flavor", "gross", "delicious", "yummy", "awful", "good", "bad"].map String.data)
  , ("price_value".data,
      ["price", "cost", "expensive", "cheap", "worth", "value", "money"].map String.data)
  , ("effectiveness".data,
      ["work", "result", "effect", "effective", "useless", "help", "improve", "better", "worse"].map String.data)
  , ("build_quality".data,
      ["quality", "build", "durable", "cheaply", "sturdy", "fragile", "well-made", "poorly-made"].map String.data)
  , ("customer_service".data,
      ["service", "support", "customer", "help", "response", "reply", "company", "seller"].map String.data)
  , ("shipping_delivery".data,
      ["shipping", "delivery", "arrive", "package", "box", "damaged", "fast", "slow"].map String.data)
  , ("ease_of_use".data,
      ["easy", "difficult", "hard", "simple", "complicated", "use", "operate", "setup"].map String.data)
  , ("size_fit".data,
      ["size", "fit", "large", "small", "big", "tight", "loose", "comfortable", "uncomfortable"].map String.data)
  , ("battery_life".data,
      ["battery", "charge", "last", "long", "short", "power", "dead"].map String.data)
  , ("appearance".data,
      ["look", "appearance", "color", "design", "beautiful", "ugly", "attractive", "stylish"].map String.data)
  , ("smell_aroma".data,
      ["smell", "odor", "scent", "aroma", "fragrance", "stink", "fresh", "bad smell"].map String.data) ]

/-- `IngestionService.extractThemes`: a theme is emitted when any of its
keywords occurs (case-insensitively) in the content; when no theme
matches, the sentinel `general_experience` is returned. -/
def extractThemes (content : List Char) : List (List Char) :=
  let themes := themeTable.filterMap (fun tk =>
    if tk.2.any (fun k => includesB (lowerL content) k) then some tk.1 else none)
  if 0 < themes.length then themes else ["general_experience".data]

/-- Accumulator value of the per-theme `Map` in `processReviews`:
`{ sentiment (running sum), mentions, quotes }`. -/
structure ThemeAccum where
  sentiment : ℚ
  mentions : Nat
  quotes : List (List Char)

/-- Insertion-ordered model of the JS `Map` used by `processReviews`. -/
abbrev ThemeMap := List (List Char × ThemeAccum)

/-- One `Map` update of `processReviews`: create the entry on first sight,
otherwise add the sentiment, bump the mention count and append the quote. -/
def bumpTheme (s : ℚ) (quote : List Char) : ThemeMap → List Char → ThemeMap
  | [], theme => [(theme, ⟨s, 1, [quote]⟩)]
  | (t, a) :: rest, theme =>
      if t = theme then
        (t, ⟨a.sentiment + s, a.mentions + 1, a.quotes ++ [quote]⟩) :: rest
      else
        (t, a) :: bumpTheme s quote rest theme

/-- The inner theme loop of `processReviews`: a review-theme pair goes to
the pain-point bucket when sentiment < 0, to the delight-factor bucket
when sentiment > 0.3, and nowhere otherwise. -/
def routeThemes (s : ℚ) (quote : List Char) (themes : List (List Char))
    (buckets : ThemeMap × ThemeMap) : ThemeMap × ThemeMap :=
  themes.foldl (fun b theme =>
    if s < 0 then (bumpTheme s quote b.1 theme, b.2)
    else if s > 0.3 then (b.1, bumpTheme s quote b.2 theme)
    else b) buckets

/-- `ThemeInsight` (pain point or delight factor) as emitted by
`processReviews`. -/
structure ThemeInsight where
  theme : List Char
  sentiment : ℚ
  mentions : Nat
  example_quotes : List (List Char)

/-- Stable descending insertion by mention count, modelling one step of
the JS sort with comparator `(a, b) => b.mentions - a.mentions`. -/
def insertByMentionsDesc (x : ThemeInsight) : List ThemeInsight → List ThemeInsight
  | [] => [x]
  | y :: ys =>
      if y.mentions < x.mentions then x :: y :: ys else y :: insertByMentionsDesc x ys

/-- The `.sort((a, b) => b.mentions - a.mentions)` call.
`Array.prototype.sort` is required by the ECMAScript specification to be
a stable sort; the algorithm itself belongs to the JS runtime, so any
stable sort is the faithful model — insertion sort is used here. -/
def sortByMentionsDesc (l : List ThemeInsight) : List ThemeInsight :=
  l.foldr insertByMentionsDesc []

/-- Final conversion of one bucket: average sentiment, at most 3 quotes,
drop zero-mention entries (vacuous by construction), sort by mention
count descending. -/
def finalizeBucket (m : ThemeMap) : List ThemeInsight :=
  sortByMentionsDesc
    ((m.map (fun ta =>
        { theme := ta.1
          sentiment := ta.2.sentiment / (ta.2.mentions : ℚ)
          mentions := ta.2.mentions
          example_quotes := ta.2.quotes.take 3 : ThemeInsight })).filter
      (fun p => 1 ≤ p.mentions))

/-- Result shape of `processReviews`. -/
structure ProcessedInsights where
  pain_points : List ThemeInsight
  delight_factors : List ThemeInsight

/-- `IngestionService.processReviews`, parameterised by the quote
transformer `tq` (`transformQuote` in the source rewrites quotes with JS
regex replacements; no settled claim concerns quote text, so the
transformer is abstracted as a function argument). -/
def processReviews (tq : List Char → Option (List Char) → List Char)
    (reviews : List Review) : ProcessedInsights :=
  let buckets := reviews.foldl (fun b review =>
      let content := lowerL review.content
      let sentiment := calculateSentiment review.rating
      let themes := extractThemes content
      let quote := tq review.content review.title
      routeThemes sentiment quote themes b)
    (([], []) : ThemeMap × ThemeMap)
  { pain_points := finalizeBucket buckets.1
    delight_factors := finalizeBucket buckets.2 }

/-! ## AI angle generator (src/unnamed/part_007, `AIService`) -/

/-- Parsed JSON values, as produced by the JS `JSON.parse`. -/
inductive Json where
  | null
  | bool (b : Bool)
  | num (q : ℚ)
  | str (s : String)
  | arr (elems : List Json)
  | obj (fields : List (String × Json))

/-- JS property access `v.k` on a parsed value: `none` models
`undefined` (missing key, or access on a primitive). -/
def getField : Json → String → Option Json
  | .obj fields, k => (fields.find? (fun f => f.1 == k)).map (fun f => f.2)
  | _, _ => none

/-- JS truthiness of a field value, for the `v || default` idiom:
`undefined`, `null`, `false`, `0` and the empty string are falsy. -/
def jsTruthy : Option Json → Bool
  | none => false
  | some .null => false
  | some (.bool b) => b
  | some (.num q) => !(q == 0)
  | some (.str s) => !(s == "")
  | some (.arr _) => true
  | some (.obj _) => true

/-- Decimal rendering of a JS number (formatting details of the JS
runtime are abstracted by Lean's printing; no settled claim depends on
the exact rendering). -/
def qToString (q : ℚ) : String :=
  if q.den == 1 then toString q.num else toString q

/-- JS `String(v)` coercion.  Array joining follows
`Array.prototype.toString`; the join rendering of nested `null` values
and objects is abstracted (no settled claim exercises it). -/
def jsToString : Json → String
  | .null => "null"
  | .bool b => if b then "true" else "false"
  | .num q => qToString q
  | .str s => s
  | .arr elems => String.intercalate "," (jsToStringList elems)
  | .obj _ => "[object Object]"
where
  /-- Pointwise rendering of array elements. -/
  jsToStringList : List Json → List String
  | [] => []
  | e :: es => jsToString e :: jsToStringList es

/-- JS `Number(v)` coercion on a field value; `none` models `NaN`.
Fractional-string parsing and single-element-array unwrapping are
abstracted to `NaN` (no settled claim exercises them). -/
def jsToNumber : Option Json → Option ℚ
  | none => none
  | some .null => some 0
  | some (.bool b) => some (if b then 1 else 0)
  | some (.num q) => some q
  | some (.str s) => if s.trim == "" then some 0 else (s.trim.toInt?).map (fun n => (n : ℚ))
  | some (.arr []) => some 0
  | some (.arr (_ :: _)) => none
  | some (.obj _) => none

/-- `AIService.ensureNumber(value, defaultValue, min = -1, max = 1)`:
`NaN` falls back to the default, otherwise clamp to `[min, max]`.  Every
caller in the source leaves the bounds at their defaults -1 and 1, which
the call sites below pass explicitly. -/
def ensureNumber (value : Option Json) (defaultValue lo hi : ℚ) : ℚ :=
  match jsToNumber value with
  | none => defaultValue
  | some num => Max.max lo (Min.min hi num)

/-- `ViralityPackGeneration` from part_007. -/
structure ViralityPackGeneration where
  angle_name : String
  core_angle : String
  hook_options : List String
  full_script : String
  visual_pacing_notes : String
  audio_suggestion : String
  sentiment_score : ℚ
  virality_score : ℚ
deriving DecidableEq

/-- JS `v || d` defaulting for string-valued fields. -/
def jsOrString (v : Option Json) (d : String) : Json :=
  if jsTruthy v then v.getD (Json.str d) else Json.str d

/-- `AIService.validateViralityPack`: stringify-or-default every text
field, wrap a non-array `hook_options` into the one-element default list,
and pass numeric scores through `ensureNumber` (with its default bounds
-1 and 1 for both scores).  This models the method body with `this`
bound; note that both call sites in the source pass the method reference
unbound to `Array.prototype.map`, where strict-mode `this` is undefined
and `this.ensureNumber` throws on invocation — see `mapPacksUnbound`. -/
def validateViralityPack (pack : Json) : ViralityPackGeneration :=
  { angle_name := jsToString (jsOrString (getField pack "angle_name") "Untitled Angle")
    core_angle := jsToString (jsOrString (getField pack "core_angle") "Focus on product benefits")
    hook_options :=
      match getField pack "hook_options" with
      | some (.arr elems) => elems.map jsToString
      | _ => ["Try this amazing product!"]
    full_script := jsToString (jsOrString (getField pack "full_script")
      "This product is amazing! You should try it. Link in bio!")
    visual_pacing_notes := jsToString (jsOrString (getField pack "visual_pacing_notes")
      "Show product, speak to camera, call to action")
    audio_suggestion := jsToString (jsOrString (getField pack "audio_suggestion")
      "Upbeat trending audio")
    sentiment_score := ensureNumber (getField pack "sentiment_score") 0 (-1) 1
    virality_score := ensureNumber (getField pack "virality_score") 0.5 (-1) 1 }

/-- `ViralityAnalysisOutput` from part_007.  `key_insights` and
`recommendations` are typed `string[]` in the source but assigned from
the parsed JSON without element validation, so they keep raw JSON
elements here. -/
structure ViralityAnalysisOutput where
  overall_sentiment_score : ℚ
  overall_virality_potential : ℚ
  key_insights : List Json
  virality_packs : List ViralityPackGeneration
  recommendations : List Json

/-- `AIService.getFallbackAnalysis`: the hardcoded analysis returned when
parsing the model response fails. -/
def getFallbackAnalysis : ViralityAnalysisOutput :=
  { overall_sentiment_score := 0.2
    overall_virality_potential := 0.6
    key_insights :=
      [ .str "Product has mixed customer reviews"
      , .str "Focus on addressing common pain points"
      , .str "Highlight unique value proposition" ]
    virality_packs :=
      [ { angle_name := "Problem-Solution"
          core_angle := "Address common customer pain points with your product as the solution"
          hook_options :=
            [ "Tired of dealing with [common problem]?"
            , "Finally found a solution for [problem]"
            , "This changed everything for me..." ]
          full_script := "Stop struggling with [pain point]... I found this product that actually works! [show product] It helped me [benefit] and now I can\x27t imagine life without it. Link in bio to try it yourself! #[relevant_hashtags]"
          visual_pacing_notes := "0-3s: show pain point; 3-5s: reveal product; 5-12s: demonstrate benefits; 12-15s: call to action"
          audio_suggestion := "Problem-solving trending audio"
          sentiment_score := 0.3
          virality_score := 0.6 } ]
    recommendations :=
      [ .str "Focus on authentic testimonials"
      , .str "Show before/after results"
      , .str "Use trending audio formats"
      , .str "Keep content under 30 seconds"
      , .str "Include clear call-to-action" ] }

/-- JS evaluation of
`Array.isArray(parsed.virality_packs) ? parsed.virality_packs.map(this.validateViralityPack) : []`
inside `parseViralityAnalysis`.  The method reference is passed UNBOUND;
class bodies are strict-mode code, so inside the callback `this` is
`undefined` and evaluating `this.ensureNumber` throws a TypeError as soon
as the callback is invoked — that is, for every non-empty array (`none`
here models that throw, which escapes to the surrounding catch).  An
empty array maps to `[]` without ever invoking the callback, and a
missing or non-array field takes the ternary's `[]` default without
mapping at all. -/
def mapPacksUnbound : Option Json → Option (List ViralityPackGeneration)
  | some (.arr []) => some []
  | some (.arr (_ :: _)) => none
  | _ => some []

/-- `AIService.parseViralityAnalysis`.  The source first extracts the
first-to-last-brace substring of the raw model response and feeds it to
`JSON.parse`; both steps belong to the JS runtime and are modelled by the
`Option Json` argument: `none` is the thrown path (no JSON object found,
or invalid JSON), `some p` a successful parse.  The catch handler
substitutes `getFallbackAnalysis`.  On a successful parse, missing or
non-array fields get per-field defaults, but mapping the unbound
`validateViralityPack` over a non-empty pack array throws
(`mapPacksUnbound` = `none`) and the catch again substitutes the
fallback. -/
def parseViralityAnalysis (parsed : Option Json) : ViralityAnalysisOutput :=
  match parsed with
  | none => getFallbackAnalysis
  | some p =>
    match mapPacksUnbound (getField p "virality_packs") with
    | none => getFallbackAnalysis
    | some packs =>
      { overall_sentiment_score := ensureNumber (getField p "overall_sentiment_score") 0 (-1) 1
        overall_virality_potential :=
          ensureNumber (getField p "overall_virality_potential") 0.5 (-1) 1
        key_insights :=
          match getField p "key_insights" with
          | some (.arr xs) => xs
          | _ => []
        virality_packs := packs
        recommendations :=
          match getField p "recommendations" with
          | some (.arr xs) => xs
          | _ => [] }

/-- The parse step of `AIService.generateAdditionalPacks`: extract the
first-to-last-bracket substring of the model response (`none` models no
match or invalid JSON) and map the unbound `validateViralityPack` over
the array.  Every branch contributes zero packs: parse failures and
non-arrays fall through to `return []`, an empty array maps to `[]`, and
a non-empty array throws in the unbound callback, which the catch
absorbs before the final `return []`. -/
def parseAdditionalPacks : Option Json → List ViralityPackGeneration
  | some (.arr []) => []
  | some (.arr (_ :: _)) => []
  | _ => []

/-- The pack list leaving `AIService.generateViralityPacks`: the main
analysis's packs followed by the best-effort additional packs. -/
def generatePacksResult (parsed additional : Option Json) : List ViralityPackGeneration :=
  (parseViralityAnalysis parsed).virality_packs ++ parseAdditionalPacks additional

/-! ## Scraper dispatch (product-service.ts, `ScrapingManager`) -/

/-- The hostname/pathname view a successful `new URL(url)` yields. -/
structure UrlView where
  hostname : String
  pathname : String

/-- JS `s.includes(pat)` on strings. -/
def strIncludes (s pat : String) : Bool := includesB s.data pat.data

/-- The four scrapers registered by the `ScrapingManager` constructor. -/
inductive ScraperId where
  | tiktokShop
  | amazon
  | aliexpress
  | generic
deriving DecidableEq, Repr

/-- The `canHandle` predicate of each scraper.  `parseUrl` abstracts the
WHATWG `new URL` constructor of the JS runtime (`none` models the
thrown-and-caught invalid-URL path, on which each predicate returns
false).  `GenericExternalScraper.canHandle` returns true for every URL. -/
def canHandle (parseUrl : String → Option UrlView) : ScraperId → String → Bool
  | .tiktokShop, url =>
      match parseUrl url with
      | some u => strIncludes u.hostname "tiktok.com" && strIncludes u.pathname "/shop/"
      | none => false
  | .amazon, url =>
      match parseUrl url with
      | some u => strIncludes u.hostname "amazon.com" || strIncludes u.hostname "amzn.to"
      | none => false
  | .aliexpress, url =>
      match parseUrl url with
      | some u => strIncludes u.hostname "aliexpress.com" ||
          strIncludes u.hostname "s.click.aliexpress.com"
      | none => false
  | .generic, _ => true

/-- Registration order in the `ScrapingManager` constructor; the generic
scraper is kept last as the fallback. -/
def scraperOrder : List ScraperId := [.tiktokShop, .amazon, .aliexpress, .generic]

/-- The dispatch in `ScrapingManager.scrapeProduct`:
`this.scrapers.find(s => s.canHandle(url))`; `none` would take the
`No suitable scraper found for this URL` error branch. -/
def selectScraper (parseUrl : String → Option UrlView) (url : String) : Option ScraperId :=
  scraperOrder.find? (fun s => canHandle parseUrl s url)

/-! ## Quote-free skeleton of the ingestion pipeline

The quote transformer is abstracted as a parameter of `processReviews`;
the skeleton below drops the quote component of every accumulator, which
provably does not influence themes, mention counts or sentiments.  It
exists so that concrete scenarios can be evaluated without fixing a
transformer. -/

/-- A theme accumulator without its quotes: `(theme, sentiment, mentions)`. -/
abbrev SkelMap := List (List Char × ℚ × Nat)

/-- The quote-free image of a `ThemeMap`. -/
def skelOf (m : ThemeMap) : SkelMap :=
  m.map (fun ta => (ta.1, ta.2.sentiment, ta.2.mentions))

/-- `bumpTheme` on skeletons. -/
def bumpSkel (s : ℚ) : SkelMap → List Char → SkelMap
  | [], theme => [(theme, s, 1)]
  | (t, sv, mv) :: rest, theme =>
      if t = theme then (t, sv + s, mv + 1) :: rest
      else (t, sv, mv) :: bumpSkel s rest theme

/-- `routeThemes` on skeletons. -/
def routeSkel (s : ℚ) (themes : List (List Char)) (b : SkelMap × SkelMap) :
    SkelMap × SkelMap :=
  themes.foldl (fun b theme =>
    if s < 0 then (bumpSkel s b.1 theme, b.2)
    else if s > 0.3 then (b.1, bumpSkel s b.2 theme)
    else b) b

/-- The review fold of `processReviews` on skeletons. -/
def ingestSkel (reviews : List Review) : SkelMap × SkelMap :=
  reviews.foldl (fun b review =>
    routeSkel (calculateSentiment review.rating)
      (extractThemes (lowerL review.content)) b) ([], [])

/-- The `(theme, mentions, sentiment)` projection of a `ThemeInsight`. -/
def insightProj (p : ThemeInsight) : List Char × Nat × ℚ :=
  (p.theme, p.mentions, p.sentiment)

/-- `insertByMentionsDesc` on projected triples. -/
def insertSkel (x : List Char × Nat × ℚ) :
    List (List Char × Nat × ℚ) → List (List Char × Nat × ℚ)
  | [] => [x]
  | y :: ys => if y.2.1 < x.2.1 then x :: y :: ys else y :: insertSkel x ys

/-- `finalizeBucket` on skeletons, producing projected triples. -/
def finalizeSkel (m : SkelMap) : List (List Char × Nat × ℚ) :=
  ((m.map (fun ts => (ts.1, ts.2.2, ts.2.1 / (ts.2.2 : ℚ)))).filter
    (fun p => 1 ≤ p.2.1)).foldr insertSkel []

/-! ## Concrete inputs used by witnesses and counterexamples -/

/-- Number of occurrences of `pat` in `hay` (all starting indices). -/
def occCount (hay pat : List Char) : Nat :=
  ((List.range (hay.length + 1)).filter (fun i => substrAtB hay pat i)).length

/-- The three-review scenario from the specification's end-to-end test. -/
def reviews3 : List Review :=
  [ ⟨5, "amazing taste and great energy".data, none⟩
  , ⟨1, "terrible taste, waste of money".data, none⟩
  , ⟨2, "bad taste".data, none⟩ ]

/-- A trivial quote transformer (identity on content), usable wherever the
abstracted transformer must be instantiated concretely. -/
def tqConst : List Char → Option (List Char) → List Char := fun c _ => c

/-- A model-output pack whose `virality_score` is negative but in [-1, 1]. -/
def negScorePack : Json := .obj [("virality_score", .num (-0.5))]

/-- A model-output pack named X carrying five hook options. -/
def modelPackX : Json :=
  .obj [("angle_name", .str "X"),
        ("hook_options", .arr [.str "a", .str "b", .str "c", .str "d", .str "e"])]

/-- A model-output pack named Y carrying two hook options. -/
def modelPackY : Json :=
  .obj [("angle_name", .str "Y"), ("hook_options", .arr [.str "a", .str "b"])]

/-- A parsed model response whose pack array holds exactly `modelPackX`. -/
def responsePackX : Json := .obj [("virality_packs", .arr [modelPackX])]

/-- A parsed model response whose pack array holds exactly `modelPackY`. -/
def responsePackY : Json := .obj [("virality_packs", .arr [modelPackY])]

/-- A syntactically valid but empty JSON object response. -/
def emptyObjJson : Json := .obj []

/-- A platform rule whose abstracted pattern matches twice in any content:
a stand-in for one global-exec regex with two match spans. -/
def sampleRule : ComplianceRule :=
  { type := "tos_violation"
    matchSpans := fun _ => [⟨0, 3⟩, ⟨8, 11⟩]
    message := "Avoid making absolute guarantees".data
    severity := .high
    suggestion := some "Use can-support phrasing".data }

/-! ## Helper lemmas: compliance scorer -/

theorem foldl_sub_weights (flags : List ComplianceFlag) (a : ℚ) :
    flags.foldl (fun acc f => acc - severityWeight f.severity) a
      = a - ((flags.map (fun f => severityWeight f.severity)).sum) := by
  induction flags generalizing a with
  | nil => simp
  | cons f rest ih => simp [ih]; ring

theorem countSeverity_cons (s : Severity) (f : ComplianceFlag) (rest : List ComplianceFlag) :
    countSeverity s (f :: rest)
      = (if f.severity = s then 1 else 0) + countSeverity s rest := by
  by_cases h : f.severity = s <;> simp [countSeverity, h] <;> omega

theorem weights_sum (flags : List ComplianceFlag) :
    ((flags.map (fun f => severityWeight f.severity)).sum)
      = 0.3 * (countSeverity .high flags : ℚ) + 0.15 * (countSeverity .medium flags : ℚ)
        + 0.05 * (countSeverity .low flags : ℚ) := by
  induction flags with
  | nil => simp [countSeverity]
  | cons f rest ih =>
      rw [List.map_cons, List.sum_cons, ih,
        countSeverity_cons .high, countSeverity_cons .medium, countSeverity_cons .low]
      rcases hs : f.severity <;>
        simp only [hs, severityWeight, reduceCtorEq, if_true, if_false, ite_true, ite_false,
          reduceIte] <;>
        push_cast <;> ring

theorem counts_partition (flags : List ComplianceFlag) :
    countSeverity .low flags + countSeverity .medium flags + countSeverity .high flags
      = flags.length := by
  induction flags with
  | nil => simp [countSeverity]
  | cons f rest ih =>
      rcases hs : f.severity <;> simp [countSeverity_cons, hs] <;> omega

theorem clamp01_bounds (x : ℚ) : 0 ≤ max 0 (min 1 x) ∧ max 0 (min 1 x) ≤ 1 :=
  ⟨le_max_left 0 _, max_le (by norm_num) (min_le_left 1 x)⟩

theorem lengthBonus_nonneg (n : Nat) : (0 : ℚ) ≤ min 0.1 ((n : ℚ) / 1000) := by
  refine le_min (by norm_num) (by positivity)

theorem risk_high_iff (flags : List ComplianceFlag) :
    determineRiskLevel flags = .high
      ↔ 0 < countSeverity .high flags ∨ 2 < countSeverity .medium flags := by
  simp only [determineRiskLevel]
  split_ifs with h1 h2 h3 <;> simp_all <;> omega

theorem risk_medium_iff (flags : List ComplianceFlag) :
    determineRiskLevel flags = .medium
      ↔ countSeverity .high flags = 0 ∧ countSeverity .medium flags ≤ 2
        ∧ (0 < countSeverity .medium flags ∨ 3 < flags.length) := by
  simp only [determineRiskLevel]
  split_ifs with h1 h2 h3 <;> simp_all <;> omega

theorem risk_low_iff (flags : List ComplianceFlag) :
    determineRiskLevel flags = .low
      ↔ countSeverity .high flags = 0 ∧ countSeverity .medium flags = 0
        ∧ flags.length ≤ 3 := by
  simp only [determineRiskLevel]
  split_ifs with h1 h2 h3 <;> simp_all <;> omega

/-! ## Claim theorems: compliance scorer -/

/-- C1.  For every flag list and content length `n ≥ 0`,
`calculateComplianceScore` equals the clamp to [0, 1] of
`1 - 0.30·#high - 0.15·#medium - 0.05·#low + min(0.10, n/1000)`, and the
result is always in [0, 1]; the early return of 1.0 for an empty flag
list agrees with the formula. -/
theorem complianceScore_matches_spec_and_clamped (flags : List ComplianceFlag) (n : Nat) :
    calculateComplianceScore flags n = specComplianceScore flags n
      ∧ 0 ≤ calculateComplianceScore flags n
      ∧ calculateComplianceScore flags n ≤ 1 := by
  have hspec : calculateComplianceScore flags n = specComplianceScore flags n := by
    rcases flags with _ | ⟨f, rest⟩
    · have hb := lengthBonus_nonneg n
      have e1 : specComplianceScore [] n
          = max 0 (min 1 (1 - 0.3 * ((0 : Nat) : ℚ) - 0.15 * ((0 : Nat) : ℚ)
              - 0.05 * ((0 : Nat) : ℚ) + min 0.1 ((n : ℚ) / 1000))) := rfl
      have e2 : (1 : ℚ) - 0.3 * ((0 : Nat) : ℚ) - 0.15 * ((0 : Nat) : ℚ)
          - 0.05 * ((0 : Nat) : ℚ) + min 0.1 ((n : ℚ) / 1000)
            = 1 + min 0.1 ((n : ℚ) / 1000) := by push_cast; ring
      have e3 : calculateComplianceScore [] n = 1 := rfl
      rw [e3, e1, e2, min_eq_left (by linarith), max_eq_right (by norm_num)]
    · show calculateComplianceScore (f :: rest) n = specComplianceScore (f :: rest) n
      unfold calculateComplianceScore specComplianceScore
      rw [if_neg (by simp), foldl_sub_weights, weights_sum]
      ring_nf
  refine ⟨hspec, ?_, ?_⟩
  · rw [hspec]; exact (clamp01_bounds _).1
  · rw [hspec]; exact (clamp01_bounds _).2

/-- C2.  `determineRiskLevel` is exactly the three-branch classifier of
the spec (high ⟺ any high flag or > 2 medium; else medium ⟺ any medium
or > 3 flags; else low), and it is decoupled from the numeric score: a
single high-severity flag with content length 1000 scores 0.8 while the
risk is still high. -/
theorem riskLevel_classification_and_decoupled :
    (∀ flags : List ComplianceFlag,
        (determineRiskLevel flags = .high
          ↔ 0 < countSeverity .high flags ∨ 2 < countSeverity .medium flags)
        ∧ (determineRiskLevel flags = .medium
          ↔ countSeverity .high flags = 0 ∧ countSeverity .medium flags ≤ 2
            ∧ (0 < countSeverity .medium flags ∨ 3 < flags.length))
        ∧ (determineRiskLevel flags = .low
          ↔ countSeverity .high flags = 0 ∧ countSeverity .medium flags = 0
            ∧ flags.length ≤ 3))
      ∧ calculateComplianceScore [sampleHighFlag] 1000 = 0.8
      ∧ determineRiskLevel [sampleHighFlag] = .high := by
  refine ⟨fun flags => ⟨risk_high_iff flags, risk_medium_iff flags, risk_low_iff flags⟩, ?_, ?_⟩
  · with_unfolding_all decide
  · decide

/-- C9.  A 'low' risk label forces a near-maximal score: if
`determineRiskLevel flags = low` then `calculateComplianceScore flags n ≥ 0.85`
for every content length, because low risk bounds the deduction by
3 · 0.05 while the length bonus is non-negative. -/
theorem low_risk_implies_high_score (flags : List ComplianceFlag) (n : Nat)
    (h : determineRiskLevel flags = .low) :
    0.85 ≤ calculateComplianceScore flags n := by
  obtain ⟨hh, hm, hlen⟩ := (risk_low_iff flags).mp h
  unfold calculateComplianceScore
  rcases flags with _ | ⟨f, rest⟩
  · norm_num
  · simp only [List.length_cons, if_neg (Nat.succ_ne_zero rest.length)]
    rw [foldl_sub_weights, weights_sum]
    have hlow : countSeverity .low (f :: rest) = (f :: rest).length := by
      have := counts_partition (f :: rest)
      omega
    have hcast : (countSeverity .low (f :: rest) : ℚ) ≤ 3 := by
      rw [hlow]; exact_mod_cast hlen
    have hb := lengthBonus_nonneg n
    have hinner : (0.85 : ℚ)
        ≤ 1 - (0.3 * ((countSeverity Severity.high (f :: rest) : ℚ))
            + 0.15 * ((countSeverity Severity.medium (f :: rest) : ℚ))
            + 0.05 * ((countSeverity Severity.low (f :: rest) : ℚ)))
          + min 0.1 ((n : ℚ) / 1000) := by
      rw [hh, hm]
      push_cast
      linarith
    calc (0.85 : ℚ) ≤ min 1 (1 - (0.3 * ((countSeverity Severity.high (f :: rest) : ℚ))
            + 0.15 * ((countSeverity Severity.medium (f :: rest) : ℚ))
            + 0.05 * ((countSeverity Severity.low (f :: rest) : ℚ)))
          + min 0.1 ((n : ℚ) / 1000)) := le_min (by norm_num) hinner
      _ ≤ _ := le_max_right 0 _

/-- C9 witness: the empty flag list has risk low and score 1 ≥ 0.85. -/
theorem low_risk_implies_high_score_witness :
    (0.85 : ℚ) ≤ calculateComplianceScore [] 5 :=
  low_risk_implies_high_score [] 5 (by decide)

/-! ## Helper lemmas: AI angle generator -/

theorem ensureNumber_bounds (v : Option Json) (d lo hi : ℚ)
    (hd1 : lo ≤ d) (hd2 : d ≤ hi) (hlohi : lo ≤ hi) :
    lo ≤ ensureNumber v d lo hi ∧ ensureNumber v d lo hi ≤ hi := by
  unfold ensureNumber
  cases jsToNumber v with
  | none => exact ⟨hd1, hd2⟩
  | some num =>
      exact ⟨le_max_left lo _, max_le hlohi (min_le_left hi num)⟩

/-! ## Claim theorems: AI angle generator and scraper dispatch -/

/-- C4 (code bug exhibit).  `sentiment_score` is indeed clamped to
[-1, 1] for every model output, but `virality_score` and
`overall_virality_potential` are clamped with `ensureNumber`'s default
bounds -1 and 1 rather than their documented range [0, 1]: a model pack
with `virality_score: -0.5` leaves `validateViralityPack` carrying the
negative score -0.5, and an overall potential of -2 leaves the parser as
-1 — both outside [0, 1], contradicting the range the generator's own
prompt documents. -/
theorem virality_score_clamp_bug :
    (∀ pack : Json,
        -1 ≤ (validateViralityPack pack).sentiment_score
        ∧ (validateViralityPack pack).sentiment_score ≤ 1
        ∧ -1 ≤ (validateViralityPack pack).virality_score
        ∧ (validateViralityPack pack).virality_score ≤ 1)
      ∧ (validateViralityPack negScorePack).virality_score = -0.5
      ∧ (validateViralityPack negScorePack).virality_score < 0
      ∧ (parseViralityAnalysis
          (some (.obj [("overall_virality_potential", .num (-2))]))).overall_virality_potential
          = -1 := by
  refine ⟨fun pack => ?_, ?_, ?_, ?_⟩
  · have h1 := ensureNumber_bounds (getField pack "sentiment_score") 0 (-1) 1
      (by norm_num) (by norm_num) (by norm_num)
    have h2 := ensureNumber_bounds (getField pack "virality_score") 0.5 (-1) 1
      (by norm_num) (by norm_num) (by norm_num)
    exact ⟨h1.1, h1.2, h2.1, h2.2⟩
  · with_unfolding_all decide
  · with_unfolding_all decide
  · with_unfolding_all decide

theorem mapPacksUnbound_eq_some {v : Option Json} {packs : List ViralityPackGeneration}
    (h : mapPacksUnbound v = some packs) : packs = [] := by
  unfold mapPacksUnbound at h
  split at h <;> simp_all

theorem fallback_hooks_three :
    ∀ pack ∈ getFallbackAnalysis.virality_packs, pack.hook_options.length = 3 := by
  intro pack h
  simp only [getFallbackAnalysis, List.mem_singleton] at h
  subst h
  rfl

theorem parse_packs_fallback_or_nil (parsed : Option Json) :
    (parseViralityAnalysis parsed).virality_packs = getFallbackAnalysis.virality_packs
      ∨ (parseViralityAnalysis parsed).virality_packs = [] := by
  rcases parsed with _ | p
  · exact Or.inl rfl
  · cases hm : mapPacksUnbound (getField p "virality_packs") with
    | none =>
        left
        simp [parseViralityAnalysis, hm]
    | some packs =>
        right
        have hnil := mapPacksUnbound_eq_some hm
        simp [parseViralityAnalysis, hm, hnil]

set_option maxRecDepth 4000 in
/-- C5 (counterexample).  A parsed response carrying one model pack with
five hook options does not have that pack truncated to 3 (nor a
two-option pack padded): the source passes `validateViralityPack`
unbound, so validating any non-empty pack array throws, the catch
replaces the entire analysis with the fallback, and the emitted pack is
the fallback pack — not the model's pack, not its bound-validated form
(which would carry five hooks), and not a three-hook truncation of it. -/
theorem pack_discarded_not_truncated_counterexample :
    (parseViralityAnalysis (some responsePackX)).virality_packs
        = getFallbackAnalysis.virality_packs
      ∧ (parseViralityAnalysis (some responsePackX)).virality_packs
        ≠ [validateViralityPack modelPackX]
      ∧ (parseViralityAnalysis (some responsePackX)).virality_packs.map
          ViralityPackGeneration.hook_options ≠ [["a", "b", "c"]]
      ∧ (validateViralityPack modelPackX).hook_options.length = 5
      ∧ (parseViralityAnalysis (some responsePackY)).virality_packs
        = getFallbackAnalysis.virality_packs := by
  refine ⟨?_, ?_, ?_, ?_, ?_⟩ <;> with_unfolding_all decide

/-- C5 (amended).  Every virality pack leaving the generation path does
have exactly 3 hook options, but not by padding or truncation: mapping
the unbound `validateViralityPack` over any non-empty pack array throws
and the catch substitutes the hardcoded fallback analysis, whose single
pack carries 3 hooks; missing, non-array or empty pack fields contribute
zero packs, and the additional-packs step always contributes zero
packs.  Model packs are discarded wholesale, never padded or
truncated. -/
theorem generation_path_hook_options_three :
    (∀ parsed additional : Option Json,
        ∀ pack ∈ generatePacksResult parsed additional, pack.hook_options.length = 3)
      ∧ (∀ (p : Json) (x : Json) (xs : List Json),
          getField p "virality_packs" = some (.arr (x :: xs)) →
          parseViralityAnalysis (some p) = getFallbackAnalysis)
      ∧ (∀ parsed : Option Json, parseAdditionalPacks parsed = [])
      ∧ getFallbackAnalysis.virality_packs.map
          (fun pack => pack.hook_options.length) = [3] := by
  have haddl : ∀ parsed : Option Json, parseAdditionalPacks parsed = [] := by
    intro parsed
    unfold parseAdditionalPacks
    split <;> rfl
  refine ⟨?_, ?_, haddl, rfl⟩
  · intro parsed additional pack hmem
    unfold generatePacksResult at hmem
    rw [haddl, List.append_nil] at hmem
    rcases parse_packs_fallback_or_nil parsed with h | h <;> rw [h] at hmem
    · exact fallback_hooks_three pack hmem
    · simp at hmem
  · intro p x xs h
    simp [parseViralityAnalysis, mapPacksUnbound, h]

/-- C5 witness: the five-hook model pack makes the whole analysis fall
back (so only the 3-hook fallback pack leaves), and the additional-packs
step contributes none. -/
theorem generation_path_hook_options_three_witness :
    parseViralityAnalysis (some responsePackX) = getFallbackAnalysis
      ∧ parseAdditionalPacks (some (.arr [modelPackY])) = [] :=
  ⟨generation_path_hook_options_three.2.1 responsePackX modelPackX [] rfl,
    generation_path_hook_options_three.2.2.1 (some (.arr [modelPackY]))⟩

/-- C8 (counterexample).  A successfully parsed response with missing
required array fields does not yield the hardcoded fallback: the empty
JSON object parses to sentiment 0 (the per-field default), while the
fallback carries 0.2. -/
theorem missing_fields_not_fallback_counterexample :
    (parseViralityAnalysis (some emptyObjJson)).overall_sentiment_score = 0
      ∧ getFallbackAnalysis.overall_sentiment_score = 0.2
      ∧ parseViralityAnalysis (some emptyObjJson) ≠ getFallbackAnalysis := by
  refine ⟨rfl, rfl, fun h => ?_⟩
  have h2 := congrArg ViralityAnalysisOutput.overall_sentiment_score h
  exact absurd h2 (by with_unfolding_all decide)

/-- C8 (amended).  On parse failure (no extractable JSON object or
invalid JSON) the generator substitutes the hardcoded fallback — overall
sentiment 0.2, overall virality potential 0.6, exactly one fallback pack
— and never propagates an error (the parser is a total function); when
the parse succeeds but array fields are missing or numeric fields absent,
the parser instead fills per-field defaults (empty arrays, sentiment 0,
potential 0.5), not the fallback result. -/
theorem parse_failure_fallback (fields : List (String × Json))
    (hpacks : getField (.obj fields) "virality_packs" = none)
    (hins : getField (.obj fields) "key_insights" = none)
    (hsent : getField (.obj fields) "overall_sentiment_score" = none) :
    parseViralityAnalysis none = getFallbackAnalysis
      ∧ getFallbackAnalysis.overall_sentiment_score = 0.2
      ∧ getFallbackAnalysis.overall_virality_potential = 0.6
      ∧ getFallbackAnalysis.virality_packs.length = 1
      ∧ (parseViralityAnalysis (some (.obj fields))).virality_packs = []
      ∧ (parseViralityAnalysis (some (.obj fields))).key_insights = []
      ∧ (parseViralityAnalysis (some (.obj fields))).overall_sentiment_score = 0 := by
  refine ⟨rfl, rfl, rfl, rfl, ?_, ?_, ?_⟩
  · simp [parseViralityAnalysis, hpacks, mapPacksUnbound]
  · simp [parseViralityAnalysis, hpacks, hins, mapPacksUnbound]
  · simp [parseViralityAnalysis, hpacks, hsent, mapPacksUnbound, ensureNumber, jsToNumber]

/-- C8 witness: the empty parsed object has all three fields missing. -/
theorem parse_failure_fallback_witness :
    (parseViralityAnalysis (some (.obj []))).virality_packs = []
      ∧ (parseViralityAnalysis (some (.obj []))).overall_sentiment_score = 0 :=
  ⟨(parse_failure_fallback [] rfl rfl rfl).2.2.2.2.1,
    (parse_failure_fallback [] rfl rfl rfl).2.2.2.2.2.2⟩

/-- C10.  The scraper list is tried in the registered order and the
generic fallback accepts every URL, so `scrapeProduct` always finds a
scraper — the `No suitable scraper found` branch is unreachable — and the
URL is dispatched to the first scraper whose predicate accepts it,
whatever the URL parser does. -/
theorem scraper_dispatch_total (parseUrl : String → Option UrlView) (url : String) :
    selectScraper parseUrl url
        = some (if canHandle parseUrl .tiktokShop url then .tiktokShop
                else if canHandle parseUrl .amazon url then .amazon
                else if canHandle parseUrl .aliexpress url then .aliexpress
                else .generic)
      ∧ selectScraper parseUrl url ≠ none := by
  have he : selectScraper parseUrl url
      = some (if canHandle parseUrl .tiktokShop url then .tiktokShop
              else if canHandle parseUrl .amazon url then .amazon
              else if canHandle parseUrl .aliexpress url then .aliexpress
              else .generic) := by
    have hgen : canHandle parseUrl .generic url = true := rfl
    cases h1 : canHandle parseUrl .tiktokShop url <;>
    cases h2 : canHandle parseUrl .amazon url <;>
    cases h3 : canHandle parseUrl .aliexpress url <;>
      simp [selectScraper, scraperOrder, List.find?, h1, h2, h3, hgen]
  exact ⟨he, by rw [he]; simp⟩

/-! ## Helper lemmas: brand-rule scanning -/

theorem find_range_least (n : Nat) (p : Nat → Bool) (i : Nat)
    (h : (List.range n).find? p = some i) :
    p i = true ∧ ∀ j < i, p j = false := by
  induction n generalizing p i with
  | zero => simp [List.range_zero] at h
  | succ n ih =>
      rw [List.range_succ_eq_map, List.find?_cons] at h
      cases h0 : p 0 with
      | true =>
          simp only [h0] at h
          obtain rfl : 0 = i := by simpa using h
          exact ⟨h0, by omega⟩
      | false =>
          simp only [h0] at h
          rw [List.find?_map] at h
          obtain ⟨i0, hi0, rfl⟩ := Option.map_eq_some'.mp h
          obtain ⟨hp, hleast⟩ := ih (p ∘ Nat.succ) i0 hi0
          refine ⟨hp, fun j hj => ?_⟩
          cases j with
          | zero => exact h0
          | succ j0 => exact hleast j0 (by omega)

theorem forbiddenMessage_inj {k1 k2 : List Char}
    (h : forbiddenMessage k1 = forbiddenMessage k2) : k1 = k2 := by
  unfold forbiddenMessage at h
  rw [List.append_assoc, List.append_assoc] at h
  have h1 := List.append_cancel_left h
  exact List.append_cancel_right h1

theorem requiredMessage_ne_forbidden (kw : List Char) :
    requiredMessage ≠ forbiddenMessage kw := by
  intro h
  have h1 : requiredMessage.head? = some (Char.ofNat 67) := rfl
  have h2 : (forbiddenMessage kw).head? = some (Char.ofNat 70) := rfl
  rw [h, h2] at h1
  exact absurd h1 (by decide)

theorem countP_forbidden (lowerContent : List Char) (L : List (List Char)) (kw : List Char)
    (hocc : includesB lowerContent (lowerL kw) = true) :
    (L.filterMap (fun keyword =>
        if includesB lowerContent (lowerL keyword) then
          some (forbiddenFlagFor lowerContent keyword)
        else none)).countP (fun f => f.message == forbiddenMessage kw)
      = L.count kw := by
  induction L with
  | nil => rfl
  | cons k0 rest ih =>
      rw [List.filterMap_cons]
      by_cases hk : k0 = kw
      · subst hk
        rw [if_pos hocc, List.countP_cons, List.count_cons, ih]
        have hmsg : ((forbiddenFlagFor lowerContent k0).message == forbiddenMessage k0) = true := by
          simp [forbiddenFlagFor]
        simp [hmsg]
      · have hmsg : ((forbiddenFlagFor lowerContent k0).message == forbiddenMessage kw) = false := by
          simp only [forbiddenFlagFor, beq_eq_false_iff_ne, ne_eq]
          exact fun hcontra => hk (forbiddenMessage_inj hcontra)
        rw [List.count_cons]
        by_cases ho : includesB lowerContent (lowerL k0) = true
        · rw [if_pos ho, List.countP_cons, ih]
          simp [hmsg, hk]
        · rw [if_neg ho, ih]
          simp [hk]

theorem mem_forbidden_part {lowerContent : List Char} {L : List (List Char)}
    {f : ComplianceFlag}
    (hf : f ∈ L.filterMap (fun keyword =>
        if includesB lowerContent (lowerL keyword) then
          some (forbiddenFlagFor lowerContent keyword)
        else none)) :
    ∃ keyword ∈ L, includesB lowerContent (lowerL keyword) = true
      ∧ f = forbiddenFlagFor lowerContent keyword := by
  obtain ⟨keyword, hmem, hsome⟩ := List.mem_filterMap.mp hf
  by_cases ho : includesB lowerContent (lowerL keyword) = true
  · rw [if_pos ho] at hsome
    exact ⟨keyword, hmem, ho, (Option.some_inj.mp hsome).symm⟩
  · rw [if_neg ho] at hsome
    exact absurd hsome (by simp)

theorem firstMatch_spec {hay pat i : _} (h : firstMatch hay pat = some i) :
    substrAtB hay pat i = true ∧ ∀ j < i, substrAtB hay pat j = false :=
  find_range_least _ _ _ h

theorem platformFlags_length (rules : List ComplianceRule) (content : List Char) :
    (platformFlags rules content).length
      = (rules.map (fun r => (r.matchSpans content).length)).sum := by
  induction rules with
  | nil => rfl
  | cons r rest ih =>
      simp [platformFlags, List.flatMap_cons, ih]
      simp [platformFlags] at ih
      omega

theorem mem_platformFlags_of_match {rules : List ComplianceRule} {content : List Char}
    {r : ComplianceRule} {m : Span} (hr : r ∈ rules) (hm : m ∈ r.matchSpans content) :
    ruleFlag r m ∈ platformFlags rules content :=
  List.mem_flatMap.mpr ⟨r, hr, List.mem_map_of_mem _ hm⟩

theorem platformFlags_positioned {rules : List ComplianceRule} {content : List Char}
    {f : ComplianceFlag} (hf : f ∈ platformFlags rules content) :
    f.position.isSome = true := by
  obtain ⟨r, _, hf2⟩ := List.mem_flatMap.mp hf
  obtain ⟨m, _, rfl⟩ := List.mem_map.mp hf2
  rfl

/-! ## Claim theorems: brand-rule scanning -/

/-- C6.  A forbidden keyword occurring in the content (however many
times) yields exactly one high-severity flag, positioned at the span of
its first occurrence only; a platform rule instead yields one flag per
match of its pattern, every match span being flagged — the asymmetry the
specification calls out. -/
theorem forbidden_first_occurrence_platform_every_match
    (content : List Char) (br : BrandRule) (kw : List Char) (rules : List ComplianceRule)
    (hcount : br.forbidden_keywords.count kw = 1)
    (hocc : includesB (lowerL content) (lowerL kw) = true) :
    ((checkBrandRules content br).countP (fun f => f.message == forbiddenMessage kw) = 1)
    ∧ (∀ f ∈ checkBrandRules content br, f.message = forbiddenMessage kw →
        f.severity = .high
        ∧ ∃ i, f.position = some ⟨i, i + kw.length⟩
            ∧ substrAtB (lowerL content) (lowerL kw) i = true
            ∧ ∀ j < i, substrAtB (lowerL content) (lowerL kw) j = false)
    ∧ ((platformFlags rules content).length
        = (rules.map (fun r => (r.matchSpans content).length)).sum)
    ∧ (∀ r ∈ rules, ∀ m ∈ r.matchSpans content, ruleFlag r m ∈ platformFlags rules content) := by
  obtain ⟨i0, hi0⟩ := Option.isSome_iff_exists.mp hocc
  refine ⟨?_, ?_, platformFlags_length rules content,
    fun r hr m hm => mem_platformFlags_of_match hr hm⟩
  · unfold checkBrandRules
    rw [List.countP_append, countP_forbidden _ _ _ hocc, hcount]
    split_ifs with hreq
    · have hne : (requiredMessage == forbiddenMessage kw) = false := by
        simp only [beq_eq_false_iff_ne, ne_eq]
        exact requiredMessage_ne_forbidden kw
      simp [requiredAdvisoryFlag, hne]
    · rfl
  · intro f hf hmsg
    rw [checkBrandRules] at hf
    rcases List.mem_append.mp hf with hf1 | hf2
    · obtain ⟨keyword, _, hoc2, rfl⟩ := mem_forbidden_part hf1
      have hkw : keyword = kw := forbiddenMessage_inj hmsg
      subst hkw
      obtain ⟨hat, hleast⟩ := firstMatch_spec hi0
      refine ⟨rfl, i0, ?_, hat, hleast⟩
      simp [forbiddenFlagFor, hi0]
    · have : f = requiredAdvisoryFlag br.required_keywords := by
        split_ifs at hf2 with hreq
        · simpa using hf2
        · simp at hf2
      rw [this] at hmsg
      exact absurd hmsg (requiredMessage_ne_forbidden kw)

/-- C6 witness: the keyword occurs three times (case-insensitively), yet
exactly one flag is produced for it; the sample platform rule has two
match spans and contributes two flags. -/
theorem forbidden_first_occurrence_platform_every_match_witness :
    occCount (lowerL "foo FOO foo!".data) (lowerL "foo".data) = 3
      ∧ ((checkBrandRules "foo FOO foo!".data ⟨["foo".data], [], []⟩).countP
          (fun f => f.message == forbiddenMessage "foo".data) = 1)
      ∧ (platformFlags [sampleRule] "foo FOO foo!".data).length = 2 :=
  ⟨by decide,
    (forbidden_first_occurrence_platform_every_match "foo FOO foo!".data
      ⟨["foo".data], [], []⟩ "foo".data [sampleRule] (by decide) (by decide)).1,
    by decide⟩

/-- C7.  With a non-empty required-keyword set: when none of the required
keywords occurs, the full analysis emits exactly one positionless flag —
the low-severity advisory whose suggestion lists every required keyword;
when some required keyword occurs, no positionless flag is emitted; and
any positionless flag is that advisory (every platform-rule and
forbidden-keyword flag carries a position). -/
theorem required_advisory_unique
    (content : List Char) (br : BrandRule) (rules : List ComplianceRule)
    (hne : br.required_keywords ≠ []) :
    (br.required_keywords.any (fun kw => includesB (lowerL content) (lowerL kw)) = false →
        (analyzeFlags rules content (some br)).countP (fun f => f.position.isNone) = 1)
    ∧ (br.required_keywords.any (fun kw => includesB (lowerL content) (lowerL kw)) = true →
        (analyzeFlags rules content (some br)).countP (fun f => f.position.isNone) = 0)
    ∧ (∀ f ∈ analyzeFlags rules content (some br), f.position = none →
        f = requiredAdvisoryFlag br.required_keywords
        ∧ f.severity = .low
        ∧ f.suggestion = some (requiredSuggestion br.required_keywords)) := by
  have hplat : (platformFlags rules content).countP (fun f => f.position.isNone) = 0 := by
    rw [List.countP_eq_zero]
    intro f hf
    simp [Option.isNone_iff_eq_none]
    exact Option.isSome_iff_ne_none.mp (platformFlags_positioned hf)
  have hforb : ∀ L : List (List Char),
      (L.filterMap (fun keyword =>
          if includesB (lowerL content) (lowerL keyword) then
            some (forbiddenFlagFor (lowerL content) keyword)
          else none)).countP (fun f => f.position.isNone) = 0 := by
    intro L
    rw [List.countP_eq_zero]
    intro f hf
    obtain ⟨keyword, _, _, rfl⟩ := mem_forbidden_part hf
    simp [forbiddenFlagFor]
  have hlen : 0 < br.required_keywords.length := List.length_pos.mpr hne
  refine ⟨fun hnone => ?_, fun hany => ?_, fun f hf hpos => ?_⟩
  · unfold analyzeFlags checkBrandRules
    rw [List.countP_append, List.countP_append, hplat, hforb,
      if_pos ⟨hlen, hnone⟩]
    rfl
  · unfold analyzeFlags checkBrandRules
    rw [List.countP_append, List.countP_append, hplat, hforb,
      if_neg (by simp [hany])]
    rfl
  · unfold analyzeFlags checkBrandRules at hf
    rcases List.mem_append.mp hf with hf1 | hf2
    · have := platformFlags_positioned hf1
      rw [hpos] at this
      exact absurd this (by simp)
    · rcases List.mem_append.mp hf2 with hf3 | hf4
      · obtain ⟨keyword, _, _, rfl⟩ := mem_forbidden_part hf3
        exact absurd hpos (by simp [forbiddenFlagFor])
      · have hfeq : f = requiredAdvisoryFlag br.required_keywords := by
          split_ifs at hf4 with hreq
          · simpa using hf4
          · simp at hf4
        exact ⟨hfeq, by rw [hfeq]; rfl, by rw [hfeq]; rfl⟩

/-- C7 witness: one missing required keyword yields exactly one
positionless advisory flag; when present, none. -/
theorem required_advisory_unique_witness :
    ((analyzeFlags [] "hello there".data (some ⟨[], ["brand".data], []⟩)).countP
        (fun f => f.position.isNone) = 1)
      ∧ ((analyzeFlags [] "my brand rocks".data (some ⟨[], ["brand".data], []⟩)).countP
        (fun f => f.position.isNone) = 0) :=
  ⟨(required_advisory_unique "hello there".data ⟨[], ["brand".data], []⟩ []
      (by decide)).1 (by decide),
    (required_advisory_unique "my brand rocks".data ⟨[], ["brand".data], []⟩ []
      (by decide)).2.1 (by decide)⟩

/-! ## Helper lemmas: review ingestion -/

theorem extractThemes_ne_nil (c : List Char) : extractThemes c ≠ [] := by
  simp only [extractThemes]
  split_ifs with h
  · exact List.length_pos.mp h
  · simp

theorem bumpTheme_ne_nil (s : ℚ) (q : List Char) (m : ThemeMap) (k : List Char) :
    bumpTheme s q m k ≠ [] := by
  cases m with
  | nil => simp [bumpTheme]
  | cons e rest =>
      unfold bumpTheme
      split_ifs <;> simp

theorem foldl_bump_ne_nil (s : ℚ) (q : List Char) (themes : List (List Char)) (m : ThemeMap)
    (h : m ≠ [] ∨ themes ≠ []) :
    themes.foldl (fun acc t => bumpTheme s q acc t) m ≠ [] := by
  induction themes generalizing m with
  | nil => simpa using h.resolve_right (by simp)
  | cons t ts ih =>
      rw [List.foldl_cons]
      exact ih _ (Or.inl (bumpTheme_ne_nil s q m t))

theorem bumpTheme_allPos (s : ℚ) (q : List Char) (m : ThemeMap) (k : List Char)
    (h : ∀ e ∈ m, 1 ≤ e.2.mentions) :
    ∀ e ∈ bumpTheme s q m k, 1 ≤ e.2.mentions := by
  induction m with
  | nil => simp [bumpTheme]
  | cons e0 rest ih =>
      unfold bumpTheme
      split_ifs with ht
      · intro e he
        rcases List.mem_cons.mp he with rfl | hmem
        · simp
        · exact h e (List.mem_cons_of_mem _ hmem)
      · intro e he
        rcases List.mem_cons.mp he with rfl | hmem
        · exact h e0 (List.mem_cons_self _ _)
        · exact ih (fun e2 he2 => h e2 (List.mem_cons_of_mem _ he2)) e hmem

theorem foldl_bump_allPos (s : ℚ) (q : List Char) (themes : List (List Char)) (m : ThemeMap)
    (h : ∀ e ∈ m, 1 ≤ e.2.mentions) :
    ∀ e ∈ themes.foldl (fun acc t => bumpTheme s q acc t) m, 1 ≤ e.2.mentions := by
  induction themes generalizing m with
  | nil => exact h
  | cons t ts ih =>
      rw [List.foldl_cons]
      exact ih _ (bumpTheme_allPos s q m t h)

theorem routeThemes_neg (s : ℚ) (q : List Char) (themes : List (List Char))
    (p d : ThemeMap) (h : s < 0) :
    routeThemes s q themes (p, d) = (themes.foldl (fun acc t => bumpTheme s q acc t) p, d) := by
  induction themes generalizing p with
  | nil => rfl
  | cons t ts ih =>
      simp only [routeThemes, List.foldl_cons] at ih ⊢
      rw [if_pos h]
      exact ih _

theorem routeThemes_mid (s : ℚ) (q : List Char) (themes : List (List Char))
    (b : ThemeMap × ThemeMap) (h1 : ¬ s < 0) (h2 : ¬ s > 0.3) :
    routeThemes s q themes b = b := by
  induction themes with
  | nil => rfl
  | cons t ts ih =>
      simp only [routeThemes, List.foldl_cons] at ih ⊢
      rw [if_neg h1, if_neg h2]
      exact ih

theorem routeThemes_pos (s : ℚ) (q : List Char) (themes : List (List Char))
    (p d : ThemeMap) (h1 : ¬ s < 0) (h2 : s > 0.3) :
    routeThemes s q themes (p, d) = (p, themes.foldl (fun acc t => bumpTheme s q acc t) d) := by
  induction themes generalizing d with
  | nil => rfl
  | cons t ts ih =>
      simp only [routeThemes, List.foldl_cons] at ih ⊢
      rw [if_neg h1, if_pos h2]
      exact ih _

theorem length_insertByMentionsDesc (x : ThemeInsight) (l : List ThemeInsight) :
    (insertByMentionsDesc x l).length = l.length + 1 := by
  induction l with
  | nil => rfl
  | cons y ys ih =>
      unfold insertByMentionsDesc
      split_ifs <;> simp [ih]

theorem length_sortByMentionsDesc (l : List ThemeInsight) :
    (sortByMentionsDesc l).length = l.length := by
  unfold sortByMentionsDesc
  induction l with
  | nil => rfl
  | cons y ys ih => simp [List.foldr_cons, length_insertByMentionsDesc, ih]

theorem finalizeBucket_ne_nil (m : ThemeMap) (hm : m ≠ [])
    (hpos : ∀ e ∈ m, 1 ≤ e.2.mentions) : finalizeBucket m ≠ [] := by
  unfold finalizeBucket
  have hfilter : ∀ p ∈ m.map (fun ta =>
      ({ theme := ta.1
         sentiment := ta.2.sentiment / (ta.2.mentions : ℚ)
         mentions := ta.2.mentions
         example_quotes := ta.2.quotes.take 3 } : ThemeInsight)), 1 ≤ p.mentions := by
    intro p hp
    obtain ⟨ta, hta, rfl⟩ := List.mem_map.mp hp
    exact hpos ta hta
  intro hcontra
  have hlen := congrArg List.length hcontra
  rw [length_sortByMentionsDesc] at hlen
  have heq : (m.map (fun ta =>
      ({ theme := ta.1
         sentiment := ta.2.sentiment / (ta.2.mentions : ℚ)
         mentions := ta.2.mentions
         example_quotes := ta.2.quotes.take 3 } : ThemeInsight))).filter
        (fun p => 1 ≤ p.mentions)
      = m.map (fun ta =>
      ({ theme := ta.1
         sentiment := ta.2.sentiment / (ta.2.mentions : ℚ)
         mentions := ta.2.mentions
         example_quotes := ta.2.quotes.take 3 } : ThemeInsight)) := by
    rw [List.filter_eq_self]
    intro p hp
    simpa using hfilter p hp
  rw [heq, List.length_map, List.length_nil] at hlen
  exact hm (List.length_eq_zero.mp hlen)

theorem skelOf_bump (s : ℚ) (q : List Char) (m : ThemeMap) (k : List Char) :
    skelOf (bumpTheme s q m k) = bumpSkel s (skelOf m) k := by
  induction m with
  | nil => rfl
  | cons e rest ih =>
      obtain ⟨t, a⟩ := e
      by_cases ht : t = k
      · simp [bumpTheme, bumpSkel, skelOf, ht]
      · simp [bumpTheme, bumpSkel, skelOf, ht]
        simpa [skelOf] using ih

theorem skel_route (s : ℚ) (q : List Char) (themes : List (List Char)) :
    ∀ p d : ThemeMap,
      (skelOf (routeThemes s q themes (p, d)).1, skelOf (routeThemes s q themes (p, d)).2)
        = routeSkel s themes (skelOf p, skelOf d) := by
  induction themes with
  | nil => intro p d; rfl
  | cons t ts ih =>
      intro p d
      simp only [routeThemes, routeSkel, List.foldl_cons] at ih ⊢
      by_cases h1 : s < 0
      · rw [if_pos h1, if_pos h1]
        simpa [skelOf_bump] using ih (bumpTheme s q p t) d
      · rw [if_neg h1, if_neg h1]
        by_cases h2 : s > 0.3
        · rw [if_pos h2, if_pos h2]
          simpa [skelOf_bump] using ih p (bumpTheme s q d t)
        · rw [if_neg h2, if_neg h2]
          exact ih p d

theorem skel_ingest (tq : List Char → Option (List Char) → List Char)
    (reviews : List Review) :
    ∀ b : ThemeMap × ThemeMap,
      (skelOf ((reviews.foldl (fun b review =>
          routeThemes (calculateSentiment review.rating) (tq review.content review.title)
            (extractThemes (lowerL review.content)) b) b)).1,
       skelOf ((reviews.foldl (fun b review =>
          routeThemes (calculateSentiment review.rating) (tq review.content review.title)
            (extractThemes (lowerL review.content)) b) b)).2)
        = reviews.foldl (fun b review =>
            routeSkel (calculateSentiment review.rating)
              (extractThemes (lowerL review.content)) b) (skelOf b.1, skelOf b.2) := by
  induction reviews with
  | nil => intro b; rfl
  | cons r rs ih =>
      intro b
      obtain ⟨p, d⟩ := b
      rw [List.foldl_cons, List.foldl_cons, ih]
      have hr := skel_route (calculateSentiment r.rating) (tq r.content r.title)
        (extractThemes (lowerL r.content)) p d
      rcases hro : routeThemes (calculateSentiment r.rating) (tq r.content r.title)
        (extractThemes (lowerL r.content)) (p, d) with ⟨p2, d2⟩
      rw [hro] at hr
      simp only at hr ⊢
      rw [← hr]

theorem map_proj_insert (x : ThemeInsight) (l : List ThemeInsight) :
    (insertByMentionsDesc x l).map insightProj
      = insertSkel (insightProj x) (l.map insightProj) := by
  induction l with
  | nil => rfl
  | cons y ys ih =>
      simp only [insertByMentionsDesc, insertSkel, List.map_cons]
      by_cases h : y.mentions < x.mentions
      · rw [if_pos h, if_pos (show (insightProj y).2.1 < (insightProj x).2.1 from h)]
        simp
      · rw [if_neg h, if_neg (show ¬ (insightProj y).2.1 < (insightProj x).2.1 from h)]
        simp [ih]

theorem map_proj_sort (l : List ThemeInsight) :
    (sortByMentionsDesc l).map insightProj = (l.map insightProj).foldr insertSkel [] := by
  unfold sortByMentionsDesc
  induction l with
  | nil => rfl
  | cons y ys ih => simp only [List.foldr_cons, List.map_cons, map_proj_insert, ih]

theorem proj_finalize (m : ThemeMap) :
    (finalizeBucket m).map insightProj = finalizeSkel (skelOf m) := by
  unfold finalizeBucket finalizeSkel
  rw [map_proj_sort]
  congr 1
  unfold skelOf
  rw [List.map_map, List.filter_map, List.filter_map, List.map_map]
  rfl

theorem processReviews_proj (tq : List Char → Option (List Char) → List Char)
    (reviews : List Review) :
    ((processReviews tq reviews).pain_points.map insightProj,
     (processReviews tq reviews).delight_factors.map insightProj)
      = (finalizeSkel (ingestSkel reviews).1, finalizeSkel (ingestSkel reviews).2) := by
  have hs := skel_ingest tq reviews ([], [])
  unfold processReviews ingestSkel
  simp only [proj_finalize]
  simp only [ingestSkel] at hs
  rw [show (skelOf ([] : ThemeMap), skelOf ([] : ThemeMap))
      = (([] : SkelMap), ([] : SkelMap)) from rfl] at hs
  rw [← congrArg Prod.fst hs, ← congrArg Prod.snd hs]

theorem processReviews_singleton (tq : List Char → Option (List Char) → List Char)
    (r : Review) :
    processReviews tq [r]
      = { pain_points := finalizeBucket ((routeThemes (calculateSentiment r.rating)
            (tq r.content r.title) (extractThemes (lowerL r.content)) ([], [])).1)
          delight_factors := finalizeBucket ((routeThemes (calculateSentiment r.rating)
            (tq r.content r.title) (extractThemes (lowerL r.content)) ([], [])).2) } := rfl

/-! ## Claim theorems: review ingestion -/

/-- C3.  The three-review scenario yields `taste_quality` in the
pain-point bucket with 2 mentions and average sentiment -0.75 and,
simultaneously, in the delight bucket with 1 mention and sentiment 1.0;
and the routing per review-theme pair sends sentiment < 0 to pain
points, sentiment > 0.3 to delight factors, and sentiments in [0, 0.3]
to neither bucket. -/
theorem processReviews_scenario_and_routing :
    (∀ tq, ((processReviews tq reviews3).pain_points.map insightProj)
        = [("taste_quality".data, 2, -0.75), ("price_value".data, 1, -1)]
      ∧ ((processReviews tq reviews3).delight_factors.map insightProj)
        = [("taste_quality".data, 1, 1)])
    ∧ (∀ tq rating content title,
        (calculateSentiment rating < 0 →
            (processReviews tq [⟨rating, content, title⟩]).delight_factors = []
          ∧ (processReviews tq [⟨rating, content, title⟩]).pain_points ≠ [])
        ∧ (0 ≤ calculateSentiment rating → calculateSentiment rating ≤ 0.3 →
            (processReviews tq [⟨rating, content, title⟩]).pain_points = []
          ∧ (processReviews tq [⟨rating, content, title⟩]).delight_factors = [])
        ∧ (0.3 < calculateSentiment rating →
            (processReviews tq [⟨rating, content, title⟩]).pain_points = []
          ∧ (processReviews tq [⟨rating, content, title⟩]).delight_factors ≠ [])) := by
  constructor
  · intro tq
    have h := processReviews_proj tq reviews3
    have h1 := congrArg Prod.fst h
    have h2 := congrArg Prod.snd h
    simp only at h1 h2
    constructor
    · rw [h1]
      with_unfolding_all decide
    · rw [h2]
      with_unfolding_all decide
  · intro tq rating content title
    refine ⟨fun hneg => ?_, fun h0 h3 => ?_, fun hpos => ?_⟩
    · rw [processReviews_singleton,
        routeThemes_neg _ _ _ _ _ hneg]
      refine ⟨rfl, ?_⟩
      exact finalizeBucket_ne_nil _
        (foldl_bump_ne_nil _ _ _ _ (Or.inr (extractThemes_ne_nil _)))
        (foldl_bump_allPos _ _ _ _ (by simp))
    · rw [processReviews_singleton,
        routeThemes_mid _ _ _ _ (not_lt.mpr h0) (not_lt.mpr h3)]
      exact ⟨rfl, rfl⟩
    · rw [processReviews_singleton,
        routeThemes_pos _ _ _ _ _ (not_lt.mpr (le_of_lt (lt_trans (by norm_num) hpos))) hpos]
      refine ⟨rfl, ?_⟩
      exact finalizeBucket_ne_nil _
        (foldl_bump_ne_nil _ _ _ _ (Or.inr (extractThemes_ne_nil _)))
        (foldl_bump_allPos _ _ _ _ (by simp))

/-- C3 witness: a rating-1 review routes to the pain-point bucket only,
and a rating-4 review (sentiment 0.5 > 0.3) to the delight bucket only. -/
theorem processReviews_scenario_and_routing_witness :
    ((processReviews tqConst [⟨1, "bad taste".data, none⟩]).delight_factors = []
      ∧ (processReviews tqConst [⟨1, "bad taste".data, none⟩]).pain_points ≠ [])
    ∧ ((processReviews tqConst [⟨4, "good taste".data, none⟩]).pain_points = []
      ∧ (processReviews tqConst [⟨4, "good taste".data, none⟩]).delight_factors ≠ []) :=
  ⟨(processReviews_scenario_and_routing.2 tqConst 1 "bad taste".data none).1
      (by with_unfolding_all decide),
    (processReviews_scenario_and_routing.2 tqConst 4 "good taste".data none).2.2
      (by with_unfolding_all decide)⟩

end CreatorsCook
